import Mathlib

/-!
Verification of the esbuild-browser repository against its natural-language
specification.  The TypeScript sources are shallowly embedded: JavaScript
objects become association lists with JavaScript property semantics
(assignment replaces the binding in place, deletion removes it), strings stay
Lean strings (JavaScript code-unit indexing agrees with code-point indexing on
the ASCII data these programs handle), async functions become pure functions
with explicit state threading, and thrown exceptions become `Except` values.
-/

/-! ## JavaScript object primitives

Association-list model of a JavaScript plain object.  Keys are unique in any
object a JavaScript program can build; the operations below preserve that.
-/

/-- Property read `o[k]`: the first binding of `k`, `none` for `undefined`. -/
def objGet {α : Type} (m : List (String × α)) (k : String) : Option α :=
  match m with
  | [] => none
  | (k', v) :: rest => if k' = k then some v else objGet rest k

/-- Property write `o[k] = v`: replaces the binding in place, else appends. -/
def objSet {α : Type} (m : List (String × α)) (k : String) (v : α) :
    List (String × α) :=
  match m with
  | [] => [(k, v)]
  | (k', v') :: rest =>
    if k' = k then (k, v) :: rest else (k', v') :: objSet rest k v

/-- Property delete `delete o[k]`: removes the binding of `k` (a JavaScript
object holds at most one binding per key, so removing every occurrence is the
same operation on the states a program can reach). -/
def objDelete {α : Type} (m : List (String × α)) (k : String) :
    List (String × α) :=
  m.filter (fun kv => !(kv.1 == k))

/-- Object spread `{...m, ...entries}`: assigns each entry in order. -/
def objAssign {α : Type} (m : List (String × α)) (entries : List (String × α)) :
    List (String × α) :=
  entries.foldl (fun acc kv => objSet acc kv.1 kv.2) m

theorem objGet_objSet {α : Type} (m : List (String × α)) (k : String) (v : α)
    (q : String) :
    objGet (objSet m k v) q = if k = q then some v else objGet m q := by
  induction m with
  | nil => simp [objSet, objGet]
  | cons hd tl ih =>
    obtain ⟨k', v'⟩ := hd
    simp only [objSet]
    by_cases hk : k' = k
    · subst hk
      by_cases hq : k' = q
      · subst hq
        simp [objGet]
      · simp [objGet, hq]
    · simp only [if_neg hk, objGet]
      by_cases hq : k' = q
      · have hkq : ¬ k = q := fun h => hk (by rw [h, hq])
        simp [hq, hkq]
      · simp [hq, ih]

theorem objGet_objDelete {α : Type} (m : List (String × α)) (k q : String) :
    objGet (objDelete m k) q = if k = q then none else objGet m q := by
  induction m with
  | nil => simp [objDelete, objGet]
  | cons hd tl ih =>
    simp only [objDelete, List.filter_cons] at ih ⊢
    by_cases hk : hd.1 = k
    · simp only [hk, beq_self_eq_true, Bool.not_true, Bool.false_eq_true,
        if_false]
      rw [ih]
      by_cases hq : k = q
      · simp [hq]
      · have : ¬ hd.1 = q := fun h => hq (by rw [← hk, h])
        simp [hq, objGet, this, hk]
    · have hbeq : (!(hd.1 == k)) = true := by simp [hk]
      simp only [hbeq, if_true]
      by_cases hq : hd.1 = q
      · have : ¬ k = q := fun h => hk (by rw [hq, h])
        simp [objGet, hq, this]
      · simp [objGet, hq, ih]

/-- JavaScript `s1 || s2` on strings (the empty string is falsy). -/
def jsStringOr (a b : String) : String :=
  if a = "" then b else a

/-- JavaScript `x?.f || d` where the optional chain may be `undefined`. -/
def jsStringOrOpt (a : Option String) (b : String) : String :=
  match a with
  | none => b
  | some s => if s = "" then b else s

/-! ## JavaScript string primitives

JavaScript string indexing is by UTF-16 code unit; every string these
programs index into is ASCII, where code units and code points coincide, so
strings are modelled through their character lists. -/

/-- JavaScript `s.startsWith(pre)`. -/
def strStartsWith (s pre : String) : Bool := pre.data.isPrefixOf s.data

/-- JavaScript `s.slice(n)` for `n ≥ 0`. -/
def strDrop (s : String) (n : Nat) : String := String.mk (s.data.drop n)

/-- JavaScript `s.slice(0, n)` for `n ≥ 0`. -/
def strTake (s : String) (n : Nat) : String := String.mk (s.data.take n)

/-- JavaScript `s.length`. -/
def strLen (s : String) : Nat := s.data.length

/-! ## Virtual file system (src/file-system-manager.ts)

`ProjectFile` has a required `contents` and the optional flags `isEntry` and
`jsEntry` (absent properties are `none`).  A `FileSystemManager` holds the
project files keyed by normalised path plus the current working directory.
-/

structure ProjectFile where
  contents : String
  isEntry : Option Bool
  jsEntry : Option Bool
deriving DecidableEq, Repr

/-- Local state of a `FileSystemManager` (the optional remote is modelled
separately by `MirrorFS`). -/
structure FSState where
  projectFiles : List (String × ProjectFile)
  currentWorkingDirectory : String
deriving DecidableEq, Repr

/-- `function absPath(path)`: strip a single leading slash. -/
def absPath (path : String) : String :=
  if strStartsWith path "/" then strDrop path 1 else path

/-- The freshly constructed file system: no files, cwd `/app`. -/
def emptyFS : FSState := ⟨[], "/app"⟩

namespace FSState

/-- `cwd()`. -/
def cwd (fs : FSState) : String := fs.currentWorkingDirectory

/-- `fileNames`: the stored keys. -/
def fileNames (fs : FSState) : List String := fs.projectFiles.map Prod.fst

/-- `rawFiles`: path-to-contents view of the project files. -/
def rawFiles (fs : FSState) : List (String × String) :=
  fs.projectFiles.map (fun kv => (kv.1, kv.2.contents))

/-- `exists(path)`: the normalised path is a key of the map. -/
def existsFile (fs : FSState) (path : String) : Bool :=
  (objGet fs.projectFiles (absPath path)).isSome

/-- `isDirectory(path)`. -/
def isDirectory (fs : FSState) (path : String) : Bool :=
  let targetPath := absPath path
  fs.fileNames.any (fun file =>
    strStartsWith file targetPath && strLen file > strLen targetPath + 1)

/-- `readFile(path)`: `projectFiles[absPath(path)]?.contents || ''`. -/
def readFile (fs : FSState) (path : String) : String :=
  jsStringOrOpt ((objGet fs.projectFiles (absPath path)).map ProjectFile.contents) ""

/-- The record stored by `writeFile`: `{...(existing || {}), contents}`. -/
def writeMerge (existing : Option ProjectFile) (contents : String) : ProjectFile :=
  match existing with
  | some f => { f with contents := contents }
  | none => ⟨contents, none, none⟩

/-- `writeFile(path, contents)` (local effect only). -/
def writeFile (fs : FSState) (path contents : String) : FSState :=
  let targetPath := absPath path
  { fs with
    projectFiles := objSet fs.projectFiles targetPath
      (writeMerge (objGet fs.projectFiles targetPath) contents) }

/-- `appendFile(path, contents)` (local effect only): delegates to
`writeFile` with `(existing?.contents || '') + contents`. -/
def appendFile (fs : FSState) (path contents : String) : FSState :=
  let targetPath := absPath path
  fs.writeFile targetPath
    (jsStringOrOpt ((objGet fs.projectFiles targetPath).map ProjectFile.contents) ""
      ++ contents)

/-- `deleteFile(path)`. -/
def deleteFile (fs : FSState) (path : String) : FSState :=
  { fs with projectFiles := objDelete fs.projectFiles (absPath path) }

/-- `readdir(path)`: every stored key beginning with the normalised path. -/
def readdir (fs : FSState) (path : String) : List String :=
  let targetPath := absPath path
  fs.fileNames.filter (fun file => strStartsWith file targetPath)

/-- `rmdir(path)`: delete every key returned by `readdir`. -/
def rmdir (fs : FSState) (path : String) : FSState :=
  (fs.readdir path).foldl (fun acc file => acc.deleteFile file) fs

/-- The record stored by `setFiles` for one entry:
`{...(existing || {}), ...file}` (present properties of `file` win). -/
def spreadMerge (existing : Option ProjectFile) (file : ProjectFile) : ProjectFile :=
  match existing with
  | some e =>
    ⟨file.contents,
      match file.isEntry with | some b => some b | none => e.isEntry,
      match file.jsEntry with | some b => some b | none => e.jsEntry⟩
  | none => file

/-- `setFiles(files)` (local effect only). -/
def setFiles (fs : FSState) (files : List (String × ProjectFile)) : FSState :=
  files.foldl
    (fun acc kv =>
      let targetPath := absPath kv.1
      { acc with
        projectFiles := objSet acc.projectFiles targetPath
          (spreadMerge (objGet acc.projectFiles targetPath) kv.2) })
    fs

/-- `chdir(path)` (local effect only). -/
def chdir (fs : FSState) (path : String) : FSState :=
  { fs with currentWorkingDirectory := absPath path }

end FSState

/-! ## Mirrored file system (a `FileSystemManager` bound to a remote proxy)

The remote proxy is, in the deployed system, another `FileSystemManager`
re-exposed over a message channel (`fromSerializedRemote`), so it is modelled
as a second `FSState` receiving exactly the calls the source forwards:
`writeFile` forwards the normalised path and the contents, `appendFile` first
goes through `this.writeFile` (which itself forwards) and then additionally
forwards an `appendFile` of the suffix, `setFiles` forwards the original map,
and `deleteFile`/`rmdir` forward nothing. -/

structure MirrorFS where
  loc : FSState
  rem : FSState
deriving DecidableEq, Repr

namespace MirrorFS

/-- `writeFile` with a remote bound. -/
def writeFile (m : MirrorFS) (path contents : String) : MirrorFS :=
  let targetPath := absPath path
  ⟨m.loc.writeFile path contents, m.rem.writeFile targetPath contents⟩

/-- `appendFile` with a remote bound: `this.writeFile(targetPath, old +
contents)` (which forwards) followed by `remote.appendFile(targetPath,
contents)`. -/
def appendFile (m : MirrorFS) (path contents : String) : MirrorFS :=
  let targetPath := absPath path
  let old := jsStringOrOpt
    ((objGet m.loc.projectFiles targetPath).map ProjectFile.contents) ""
  let m1 := m.writeFile targetPath (old ++ contents)
  ⟨m1.loc, m1.rem.appendFile targetPath contents⟩

/-- `setFiles` with a remote bound: the original map is forwarded. -/
def setFiles (m : MirrorFS) (files : List (String × ProjectFile)) : MirrorFS :=
  ⟨m.loc.setFiles files, m.rem.setFiles files⟩

/-- `deleteFile`: no forwarding in the source. -/
def deleteFile (m : MirrorFS) (path : String) : MirrorFS :=
  ⟨m.loc.deleteFile path, m.rem⟩

/-- `rmdir`: iterates the local `readdir` over `this.deleteFile`, which does
not forward. -/
def rmdir (m : MirrorFS) (path : String) : MirrorFS :=
  ⟨m.loc.rmdir path, m.rem⟩

end MirrorFS

/-- One mutation of the virtual file system API. -/
inductive MutOp where
  | write (path contents : String)
  | append (path contents : String)
  | set (files : List (String × ProjectFile))
  | delete (path : String)
  | removeDir (path : String)
deriving DecidableEq, Repr

/-- Apply one mutation to a mirrored pair, as the source forwards it. -/
def applyMut (m : MirrorFS) : MutOp → MirrorFS
  | .write p c => m.writeFile p c
  | .append p c => m.appendFile p c
  | .set files => m.setFiles files
  | .delete p => m.deleteFile p
  | .removeDir p => m.rmdir p

/-- Apply a sequence of mutations. -/
def applyMuts (m : MirrorFS) (ops : List MutOp) : MirrorFS :=
  ops.foldl applyMut m

/-- Two file systems hold the same contents at the keys of `a`. -/
def contentsSub (a b : FSState) : Bool :=
  a.projectFiles.all (fun kv =>
    (objGet b.projectFiles kv.1).map ProjectFile.contents ==
      (objGet a.projectFiles kv.1).map ProjectFile.contents)

/-- Decidable file-contents mirroring: the two file systems agree, path by
path, on which files exist and what they contain. -/
def mirrorB (a b : FSState) : Bool :=
  contentsSub a b && contentsSub b a

/-- Propositional version of `mirrorB`. -/
def RawMirror (a b : FSState) : Prop :=
  ∀ p, (objGet a.projectFiles p).map ProjectFile.contents =
    (objGet b.projectFiles p).map ProjectFile.contents

theorem objGet_isSome_mem_keys {α : Type} (m : List (String × α)) (q : String)
    (h : (objGet m q).isSome) : q ∈ m.map Prod.fst := by
  induction m with
  | nil => simp [objGet] at h
  | cons hd tl ih =>
    simp only [objGet] at h
    by_cases hq : hd.1 = q
    · simp [hq]
    · simp only [hq, if_false] at h
      simp [ih h]

theorem mirrorB_iff (a b : FSState) : mirrorB a b = true ↔ RawMirror a b := by
  constructor
  · intro h p
    have hpair := (Bool.and_eq_true _ _).mp h
    have hab : contentsSub a b = true := hpair.1
    have hba : contentsSub b a = true := hpair.2
    cases ha : objGet a.projectFiles p with
    | some v =>
      have hmem : p ∈ a.projectFiles.map Prod.fst :=
        objGet_isSome_mem_keys _ _ (by simp [ha])
      obtain ⟨kv, hkv, hfst⟩ := List.mem_map.mp hmem
      have hcmp := (List.all_eq_true.mp hab) kv hkv
      rw [hfst] at hcmp
      rw [ha] at hcmp
      exact (eq_of_beq hcmp).symm
    | none =>
      cases hb : objGet b.projectFiles p with
      | some w =>
        have hmem : p ∈ b.projectFiles.map Prod.fst :=
          objGet_isSome_mem_keys _ _ (by simp [hb])
        obtain ⟨kv, hkv, hfst⟩ := List.mem_map.mp hmem
        have hcmp := (List.all_eq_true.mp hba) kv hkv
        rw [hfst] at hcmp
        rw [ha, hb] at hcmp
        simp at hcmp
      | none => simp
  · intro h
    have hsub : ∀ x y : FSState, RawMirror x y → contentsSub x y = true := by
      intro x y hxy
      apply List.all_eq_true.mpr
      intro kv _
      simp [hxy kv.1]
    have hsymm : RawMirror b a := fun p => (h p).symm
    simp [mirrorB, hsub a b h, hsub b a hsymm]

theorem absPath_of_no_slash (p : String) (h : strStartsWith p "/" = false) :
    absPath p = p := by
  simp [absPath, h]

theorem contents_writeMerge (e : Option ProjectFile) (c : String) :
    (FSState.writeMerge e c).contents = c := by
  cases e <;> rfl

theorem contents_spreadMerge (e : Option ProjectFile) (f : ProjectFile) :
    (FSState.spreadMerge e f).contents = f.contents := by
  cases e <;> rfl

theorem rawMirror_writeFile (a b : FSState) (p c : String)
    (hp : strStartsWith (absPath p) "/" = false) (h : RawMirror a b) :
    RawMirror (a.writeFile p c) (b.writeFile (absPath p) c) := by
  intro q
  have hidem : absPath (absPath p) = absPath p := absPath_of_no_slash _ hp
  simp only [FSState.writeFile, objGet_objSet, hidem]
  by_cases hq : absPath p = q
  · simp [hq, contents_writeMerge]
  · simp [hq, h q]

theorem rawMirror_setFiles (files : List (String × ProjectFile)) :
    ∀ a b : FSState, RawMirror a b →
      RawMirror (a.setFiles files) (b.setFiles files) := by
  induction files with
  | nil => intro a b h; simpa [FSState.setFiles] using h
  | cons kv rest ih =>
    intro a b h
    simp only [FSState.setFiles, List.foldl_cons]
    apply ih
    intro q
    simp only [objGet_objSet]
    by_cases hq : absPath kv.1 = q
    · simp [hq, contents_spreadMerge]
    · simp [hq, h q]

/-- Mutations that do preserve mirroring: `writeFile` on a path whose
normalised form does not itself start with a slash, and `setFiles`. -/
def mirrorSafe : MutOp → Bool
  | .write p _ => !(strStartsWith (absPath p) "/")
  | .set _ => true
  | _ => false

theorem rawMirror_applyMuts (ops : List MutOp) :
    ∀ m : MirrorFS, RawMirror m.loc m.rem → ops.all mirrorSafe = true →
      RawMirror (applyMuts m ops).loc (applyMuts m ops).rem := by
  induction ops with
  | nil => intro m hM _; exact hM
  | cons op rest ih =>
    intro m hM hS
    rw [List.all_cons, Bool.and_eq_true] at hS
    obtain ⟨hop, hrest⟩ := hS
    simp only [applyMuts, List.foldl_cons]
    apply ih _ _ hrest
    cases op with
    | write p c =>
      simp only [mirrorSafe, Bool.not_eq_true'] at hop
      exact rawMirror_writeFile _ _ _ _ hop hM
    | set files => exact rawMirror_setFiles _ _ _ hM
    | append p c => simp [mirrorSafe] at hop
    | delete p => simp [mirrorSafe] at hop
    | removeDir p => simp [mirrorSafe] at hop

/-- Claim C1 is false as stated: a single `appendFile` desynchronises the
remote (the suffix is applied twice there, once through the forwarded
`writeFile` and once through the forwarded `appendFile`), and a
`writeFile`/`deleteFile` pair desynchronises it because `deleteFile` is not
forwarded at all. -/
theorem c1_remote_mirror_counterexample :
    (applyMuts ⟨emptyFS, emptyFS⟩ [MutOp.append "a" "x"]).loc.readFile "a" = "x" ∧
    (applyMuts ⟨emptyFS, emptyFS⟩ [MutOp.append "a" "x"]).rem.readFile "a" = "xx" ∧
    mirrorB (applyMuts ⟨emptyFS, emptyFS⟩ [MutOp.append "a" "x"]).loc
      (applyMuts ⟨emptyFS, emptyFS⟩ [MutOp.append "a" "x"]).rem = false ∧
    mirrorB (applyMuts ⟨emptyFS, emptyFS⟩ [MutOp.write "b" "y", MutOp.delete "b"]).loc
      (applyMuts ⟨emptyFS, emptyFS⟩ [MutOp.write "b" "y", MutOp.delete "b"]).rem
      = false := by
  decide

/-- Claim C1 (amended): `writeFile`, `appendFile` and `setFiles` forward to
the remote proxy but `deleteFile` and `rmdir` do not, and `appendFile`
forwards the suffix twice; mirroring therefore holds exactly for sequences of
`writeFile` mutations (on paths whose normalised form does not start with a
slash) and `setFiles` mutations: starting from mirrored file systems, any
such sequence leaves the remote file contents equal to the local ones. -/
theorem c1_remote_mirror_amended (ops : List MutOp) (m : MirrorFS)
    (hM : mirrorB m.loc m.rem = true) (hS : ops.all mirrorSafe = true) :
    mirrorB (applyMuts m ops).loc (applyMuts m ops).rem = true :=
  (mirrorB_iff _ _).mpr (rawMirror_applyMuts ops m ((mirrorB_iff _ _).mp hM) hS)

/-- Witness for the amended claim C1 at a concrete mutation sequence. -/
theorem c1_remote_mirror_amended_witness :
    ([MutOp.write "/a" "x", MutOp.set [("b", ⟨"y", some true, none⟩)]].all
        mirrorSafe = true) ∧
    mirrorB
      (applyMuts ⟨emptyFS, emptyFS⟩
        [MutOp.write "/a" "x", MutOp.set [("b", ⟨"y", some true, none⟩)]]).loc
      (applyMuts ⟨emptyFS, emptyFS⟩
        [MutOp.write "/a" "x", MutOp.set [("b", ⟨"y", some true, none⟩)]]).rem
      = true :=
  ⟨by decide, c1_remote_mirror_amended _ _ (by decide) (by decide)⟩

/-! ## Path normalisation (claims C6, C8, C9) -/

theorem absPath_slash_append (p : String) : absPath ("/" ++ p) = p := by
  have hdata : ("/" ++ p).data = '/' :: p.data := by
    have h0 : ("/" ++ p).data = "/".data ++ p.data := String.data_append "/" p
    simp only [h0]
    rfl
  simp [absPath, strStartsWith, strDrop, hdata, List.isPrefixOf]

theorem isEntry_writeMerge (e : Option ProjectFile) (c : String) :
    (FSState.writeMerge e c).isEntry = e.bind ProjectFile.isEntry := by
  cases e <;> rfl

theorem jsEntry_writeMerge (e : Option ProjectFile) (c : String) :
    (FSState.writeMerge e c).jsEntry = e.bind ProjectFile.jsEntry := by
  cases e <;> rfl

/-- Claim C6 is false as stated: the normaliser strips a single leading
slash, so for a path that already starts with a slash, prepending another one
changes behaviour.  With a file stored at key `a`, `readFile "/a"` finds it
but `readFile ("/" ++ "/a")` does not. -/
theorem c6_path_norm_counterexample :
    (emptyFS.writeFile "a" "x").readFile "/a" = "x" ∧
    (emptyFS.writeFile "a" "x").readFile ("/" ++ "/a") = "" ∧
    (emptyFS.writeFile "a" "x").existsFile "/a" = true ∧
    (emptyFS.writeFile "a" "x").existsFile ("/" ++ "/a") = false := by
  decide

/-- Claim C6 (amended): for every path `p` that does not itself start with a
slash, every file-system API surface behaves identically on `p` and on
`"/" ++ p`; and the concrete write/read round trips hold as stated. -/
theorem c6_path_norm_amended (fs : FSState) (p c : String) (f : ProjectFile)
    (h : strStartsWith p "/" = false) :
    fs.existsFile ("/" ++ p) = fs.existsFile p ∧
    fs.readFile ("/" ++ p) = fs.readFile p ∧
    fs.isDirectory ("/" ++ p) = fs.isDirectory p ∧
    fs.readdir ("/" ++ p) = fs.readdir p ∧
    fs.writeFile ("/" ++ p) c = fs.writeFile p c ∧
    fs.appendFile ("/" ++ p) c = fs.appendFile p c ∧
    fs.deleteFile ("/" ++ p) = fs.deleteFile p ∧
    fs.rmdir ("/" ++ p) = fs.rmdir p ∧
    fs.setFiles [("/" ++ p, f)] = fs.setFiles [(p, f)] ∧
    (fs.writeFile "/a/b" "x").readFile "a/b" = "x" ∧
    (fs.writeFile "/a/b" "x").existsFile "a/b" = true ∧
    (fs.writeFile "/a/b" "x").existsFile "/a/b" = true := by
  have habs : absPath ("/" ++ p) = absPath p := by
    rw [absPath_slash_append, absPath_of_no_slash p h]
  have hab : absPath "/a/b" = "a/b" := by decide
  have hab2 : absPath "a/b" = "a/b" := by decide
  refine ⟨?_, ?_, ?_, ?_, ?_, ?_, ?_, ?_, ?_, ?_, ?_, ?_⟩
  · simp [FSState.existsFile, habs]
  · simp [FSState.readFile, habs]
  · simp [FSState.isDirectory, habs]
  · simp [FSState.readdir, habs]
  · simp [FSState.writeFile, habs]
  · simp [FSState.appendFile, FSState.writeFile, habs]
  · simp [FSState.deleteFile, habs]
  · simp [FSState.rmdir, FSState.readdir, habs]
  · simp [FSState.setFiles, habs]
  · simp [FSState.readFile, FSState.writeFile, hab, hab2, objGet_objSet,
      contents_writeMerge, jsStringOrOpt]
  · simp [FSState.existsFile, FSState.writeFile, hab, hab2, objGet_objSet]
  · simp [FSState.existsFile, FSState.writeFile, hab, objGet_objSet]

/-- Witness for the amended claim C6 at `p = "a/b"`. -/
theorem c6_path_norm_amended_witness :
    (strStartsWith "a/b" "/" = false) ∧
    ((emptyFS.existsFile ("/" ++ "a/b") = emptyFS.existsFile "a/b") ∧
      (emptyFS.readFile ("/" ++ "a/b") = emptyFS.readFile "a/b") ∧
      (emptyFS.isDirectory ("/" ++ "a/b") = emptyFS.isDirectory "a/b") ∧
      (emptyFS.readdir ("/" ++ "a/b") = emptyFS.readdir "a/b") ∧
      (emptyFS.writeFile ("/" ++ "a/b") "x" = emptyFS.writeFile "a/b" "x") ∧
      (emptyFS.appendFile ("/" ++ "a/b") "x" = emptyFS.appendFile "a/b" "x") ∧
      (emptyFS.deleteFile ("/" ++ "a/b") = emptyFS.deleteFile "a/b") ∧
      (emptyFS.rmdir ("/" ++ "a/b") = emptyFS.rmdir "a/b") ∧
      (emptyFS.setFiles [("/" ++ "a/b", ⟨"z", none, none⟩)] =
        emptyFS.setFiles [("a/b", ⟨"z", none, none⟩)]) ∧
      ((emptyFS.writeFile "/a/b" "x").readFile "a/b" = "x") ∧
      ((emptyFS.writeFile "/a/b" "x").existsFile "a/b" = true) ∧
      ((emptyFS.writeFile "/a/b" "x").existsFile "/a/b" = true)) :=
  ⟨by decide, c6_path_norm_amended emptyFS "a/b" "x" ⟨"z", none, none⟩ (by decide)⟩

/-- Claim C8: `writeFile` and `appendFile` merge into the existing record at
the path they store to (for `appendFile` the store key is the normalised form
of the already-normalised target the source passes back into `writeFile`):
the new record exists, its contents are replaced (for `appendFile`, the old
contents — read at the singly-normalised path — with the suffix appended),
the `isEntry` and `jsEntry` flags are taken unchanged from the prior record
(absent when there was none), and every other key is untouched. -/
theorem c8_write_merge_preserves_flags (fs : FSState) (p c q : String)
    (hq : q ≠ absPath p) (hq2 : q ≠ absPath (absPath p)) :
    ((objGet (fs.writeFile p c).projectFiles (absPath p)).map
        ProjectFile.contents = some c) ∧
    ((objGet (fs.writeFile p c).projectFiles (absPath p)).bind
        ProjectFile.isEntry =
      (objGet fs.projectFiles (absPath p)).bind ProjectFile.isEntry) ∧
    ((objGet (fs.writeFile p c).projectFiles (absPath p)).bind
        ProjectFile.jsEntry =
      (objGet fs.projectFiles (absPath p)).bind ProjectFile.jsEntry) ∧
    (objGet (fs.writeFile p c).projectFiles q = objGet fs.projectFiles q) ∧
    ((objGet (fs.appendFile p c).projectFiles (absPath (absPath p))).map
        ProjectFile.contents = some (fs.readFile p ++ c)) ∧
    ((objGet (fs.appendFile p c).projectFiles (absPath (absPath p))).bind
        ProjectFile.isEntry =
      (objGet fs.projectFiles (absPath (absPath p))).bind ProjectFile.isEntry) ∧
    ((objGet (fs.appendFile p c).projectFiles (absPath (absPath p))).bind
        ProjectFile.jsEntry =
      (objGet fs.projectFiles (absPath (absPath p))).bind ProjectFile.jsEntry) ∧
    (objGet (fs.appendFile p c).projectFiles q = objGet fs.projectFiles q) := by
  have hqs : ¬ absPath p = q := fun h => hq h.symm
  have hqs2 : ¬ absPath (absPath p) = q := fun h => hq2 h.symm
  refine ⟨?_, ?_, ?_, ?_, ?_, ?_, ?_, ?_⟩
  · simp [FSState.writeFile, objGet_objSet, contents_writeMerge]
  · simp [FSState.writeFile, objGet_objSet, isEntry_writeMerge]
  · simp [FSState.writeFile, objGet_objSet, jsEntry_writeMerge]
  · simp [FSState.writeFile, objGet_objSet, hqs]
  · simp [FSState.appendFile, FSState.writeFile, FSState.readFile,
      objGet_objSet, contents_writeMerge]
  · simp [FSState.appendFile, FSState.writeFile, objGet_objSet,
      isEntry_writeMerge]
  · simp [FSState.appendFile, FSState.writeFile, objGet_objSet,
      jsEntry_writeMerge]
  · simp [FSState.appendFile, FSState.writeFile, objGet_objSet, hqs2]

/-- Witness for claim C8: a record with both flags set keeps them across a
`writeFile` and an `appendFile`, and an unrelated key is untouched. -/
theorem c8_write_merge_preserves_flags_witness :
    (("other" : String) ≠ absPath "a" ∧ ("other" : String) ≠ absPath (absPath "a")) ∧
    (((objGet ((FSState.mk [("a", ⟨"old", some true, some false⟩)] "/app").writeFile
          "a" "new").projectFiles (absPath "a")).map ProjectFile.contents = some "new") ∧
      ((objGet ((FSState.mk [("a", ⟨"old", some true, some false⟩)] "/app").writeFile
          "a" "new").projectFiles (absPath "a")).bind ProjectFile.isEntry =
        (objGet (FSState.mk [("a", ⟨"old", some true, some false⟩)] "/app").projectFiles
          (absPath "a")).bind ProjectFile.isEntry) ∧
      ((objGet ((FSState.mk [("a", ⟨"old", some true, some false⟩)] "/app").writeFile
          "a" "new").projectFiles (absPath "a")).bind ProjectFile.jsEntry =
        (objGet (FSState.mk [("a", ⟨"old", some true, some false⟩)] "/app").projectFiles
          (absPath "a")).bind ProjectFile.jsEntry) ∧
      (objGet ((FSState.mk [("a", ⟨"old", some true, some false⟩)] "/app").writeFile
          "a" "new").projectFiles "other" =
        objGet (FSState.mk [("a", ⟨"old", some true, some false⟩)] "/app").projectFiles
          "other") ∧
      ((objGet ((FSState.mk [("a", ⟨"old", some true, some false⟩)] "/app").appendFile
          "a" "new").projectFiles (absPath (absPath "a"))).map ProjectFile.contents =
        some ((FSState.mk [("a", ⟨"old", some true, some false⟩)] "/app").readFile "a"
          ++ "new")) ∧
      ((objGet ((FSState.mk [("a", ⟨"old", some true, some false⟩)] "/app").appendFile
          "a" "new").projectFiles (absPath (absPath "a"))).bind ProjectFile.isEntry =
        (objGet (FSState.mk [("a", ⟨"old", some true, some false⟩)] "/app").projectFiles
          (absPath (absPath "a"))).bind ProjectFile.isEntry) ∧
      ((objGet ((FSState.mk [("a", ⟨"old", some true, some false⟩)] "/app").appendFile
          "a" "new").projectFiles (absPath (absPath "a"))).bind ProjectFile.jsEntry =
        (objGet (FSState.mk [("a", ⟨"old", some true, some false⟩)] "/app").projectFiles
          (absPath (absPath "a"))).bind ProjectFile.jsEntry) ∧
      (objGet ((FSState.mk [("a", ⟨"old", some true, some false⟩)] "/app").appendFile
          "a" "new").projectFiles "other" =
        objGet (FSState.mk [("a", ⟨"old", some true, some false⟩)] "/app").projectFiles
          "other")) :=
  ⟨by decide,
    c8_write_merge_preserves_flags (FSState.mk [("a", ⟨"old", some true, some false⟩)]
      "/app") "a" "new" "other" (by decide) (by decide)⟩

/-- Claim C9: `readFile` is a total function returning the stored contents
when the normalised path is a key of the project-file map and the empty
string otherwise; consequently a missing file is indistinguishable from a
stored file whose contents are empty. -/
theorem c9_readFile_total_or_empty (fs : FSState) (p : String) :
    fs.readFile p =
      ((objGet fs.projectFiles (absPath p)).map ProjectFile.contents).getD "" ∧
    (fs.writeFile p "").readFile p = (fs.deleteFile p).readFile p := by
  constructor
  · unfold FSState.readFile jsStringOrOpt
    cases hg : objGet fs.projectFiles (absPath p) with
    | none => simp
    | some f =>
      simp only [Option.map_some', Option.getD_some]
      by_cases hc : f.contents = "" <;> simp [hc]
  · simp [FSState.readFile, FSState.writeFile, FSState.deleteFile,
      objGet_objSet, objGet_objDelete, contents_writeMerge, jsStringOrOpt]

/-! ## Packages fingerprint (src/dependencies-installer.ts, claim C5)

`packagesHash` sorts `Object.entries(packages)` with
`$1[0].localeCompare($2[0])`, joins `name@version` with `;`, and base64
encodes the result.  `localeCompare` is environment-dependent in JavaScript;
it is modelled as code-point lexicographic comparison, which agrees with it
on package names, and any strict total comparison gives the same sorted
array on the unique keys of a dependency map. -/

/-- Lexicographic strict comparison of character lists. -/
def charListLt : List Char → List Char → Bool
  | [], [] => false
  | [], _ :: _ => true
  | _ :: _, [] => false
  | a :: as, b :: bs =>
    if a < b then true else if b < a then false else charListLt as bs

/-- `a` sorts strictly before `b` (model of `a.localeCompare(b) < 0`). -/
def strLt (a b : String) : Bool := charListLt a.data b.data

/-- The comparator the source passes to `sort`, as a predicate
`$1[0].localeCompare($2[0]) <= 0`. -/
def entryLE (a b : String × String) : Bool := !(strLt b.1 a.1)

theorem charListLt_asymm :
    ∀ as bs : List Char, charListLt as bs = true → charListLt bs as = false := by
  intro as
  induction as with
  | nil =>
    intro bs h
    cases bs with
    | nil => simp [charListLt] at h
    | cons b bs' => simp [charListLt]
  | cons a as' ih =>
    intro bs h
    cases bs with
    | nil => simp [charListLt] at h
    | cons b bs' =>
      simp only [charListLt] at h ⊢
      by_cases hab : a < b
      · have hba : ¬ b < a := lt_asymm hab
        simp [hab, hba]
      · by_cases hba : b < a
        · simp [hab, hba] at h
        · simp only [hab, if_false, hba] at h ⊢
          simp [ih bs' h]

theorem charListLt_both_false_eq :
    ∀ as bs : List Char, charListLt as bs = false → charListLt bs as = false →
      as = bs := by
  intro as
  induction as with
  | nil =>
    intro bs h _
    cases bs with
    | nil => rfl
    | cons b bs' => simp [charListLt] at h
  | cons a as' ih =>
    intro bs h h'
    cases bs with
    | nil => simp [charListLt] at h'
    | cons b bs' =>
      simp only [charListLt] at h h'
      by_cases hab : a < b
      · simp [hab] at h
      · by_cases hba : b < a
        · simp [hba, hab] at h'
        · have heq : a = b := le_antisymm (not_lt.mp hba) (not_lt.mp hab)
          simp only [hab, hba, if_false] at h h'
          rw [heq, ih bs' h h']

theorem charListLt_le_trans :
    ∀ as bs cs : List Char, charListLt bs as = false → charListLt cs bs = false →
      charListLt cs as = false := by
  intro as
  induction as with
  | nil =>
    intro bs cs h h'
    cases cs with
    | nil => rfl
    | cons c cs' => rfl
  | cons a as' ih =>
    intro bs cs h h'
    cases cs with
    | nil =>
      cases bs with
      | nil => simp [charListLt] at h
      | cons b bs' => simp [charListLt] at h'
    | cons c cs' =>
      cases bs with
      | nil => simp [charListLt] at h
      | cons b bs' =>
        simp only [charListLt] at h h' ⊢
        by_cases hba : b < a
        · simp [hba] at h
        · by_cases hcb : c < b
          · simp [hcb] at h'
          · have h1 : a ≤ b := not_lt.mp hba
            have h2 : b ≤ c := not_lt.mp hcb
            have hca : ¬ c < a := not_lt.mpr (h1.trans h2)
            simp only [hca, if_false]
            by_cases hac : a < c
            · simp [hac]
            · have hacq : a = c := le_antisymm (h1.trans h2) (not_lt.mp hac)
              have heqab : a = b :=
                le_antisymm h1 (h2.trans (le_of_eq hacq.symm))
              subst heqab
              have heqac : a = c := hacq
              subst heqac
              simp only [lt_irrefl, if_false] at h h'
              simp only [hac, if_false]
              exact ih bs' cs' h h'

theorem entryLE_of_not (a b : String × String) (h : entryLE a b = false) :
    entryLE b a = true := by
  simp only [entryLE, Bool.not_eq_false'] at h
  simp only [entryLE, Bool.not_eq_true']
  exact charListLt_asymm _ _ h

theorem entryLE_trans (a b c : String × String) (hab : entryLE a b = true)
    (hbc : entryLE b c = true) : entryLE a c = true := by
  simp only [entryLE, Bool.not_eq_true'] at hab hbc ⊢
  exact charListLt_le_trans a.1.data b.1.data c.1.data hab hbc

theorem entryLE_keys_eq (a b : String × String) (hab : entryLE a b = true)
    (hba : entryLE b a = true) : a.1 = b.1 := by
  simp only [entryLE, Bool.not_eq_true'] at hab hba
  have hdata : a.1.data = b.1.data :=
    charListLt_both_false_eq a.1.data b.1.data hba hab
  exact congrArg String.mk hdata

/-- Insert one element into a comparator-sorted list. -/
def jsSortInsert {α : Type} (le : α → α → Bool) (x : α) : List α → List α
  | [] => [x]
  | y :: ys => if le x y then x :: y :: ys else y :: jsSortInsert le x ys

/-- JavaScript `array.sort(cmp)`, modelled as an insertion sort: ECMAScript
leaves the algorithm open but guarantees a comparator-sorted result, and on
the duplicate-free keys of `Object.entries` every comparator-sorted
permutation coincides (`jsSorted_perm_eq`). -/
def jsSort {α : Type} (le : α → α → Bool) (l : List α) : List α :=
  l.foldr (jsSortInsert le) []

theorem jsSortInsert_perm {α : Type} (le : α → α → Bool) (x : α)
    (l : List α) : (jsSortInsert le x l).Perm (x :: l) := by
  induction l with
  | nil => exact List.Perm.refl _
  | cons y ys ih =>
    simp only [jsSortInsert]
    by_cases h : le x y = true
    · rw [if_pos h]
    · rw [if_neg h]
      exact (ih.cons y).trans (List.Perm.swap x y ys)

theorem jsSort_perm {α : Type} (le : α → α → Bool) (l : List α) :
    (jsSort le l).Perm l := by
  induction l with
  | nil => exact List.Perm.refl _
  | cons x xs ih =>
    simp only [jsSort, List.foldr_cons]
    exact (jsSortInsert_perm le x _).trans (ih.cons x)

theorem pairwise_jsSortInsert {α : Type} (le : α → α → Bool)
    (htot : ∀ a b, le a b = false → le b a = true)
    (htrans : ∀ a b c, le a b = true → le b c = true → le a c = true)
    (x : α) (l : List α) (h : l.Pairwise (fun a b => le a b = true)) :
    (jsSortInsert le x l).Pairwise (fun a b => le a b = true) := by
  induction l with
  | nil => simp [jsSortInsert]
  | cons y ys ih =>
    rcases List.pairwise_cons.mp h with ⟨hy, hys⟩
    simp only [jsSortInsert]
    by_cases hxy : le x y = true
    · rw [if_pos hxy]
      refine List.pairwise_cons.mpr ⟨?_, h⟩
      intro z hz
      rcases List.mem_cons.mp hz with heq | hz'
      · rw [heq]; exact hxy
      · exact htrans x y z hxy (hy z hz')
    · rw [if_neg hxy]
      have hxyF : le x y = false := by simpa using hxy
      refine List.pairwise_cons.mpr ⟨?_, ih hys⟩
      intro z hz
      have hz2 := (jsSortInsert_perm le x ys).mem_iff.mp hz
      rcases List.mem_cons.mp hz2 with heq | hz'
      · rw [heq]; exact htot x y hxyF
      · exact hy z hz'

theorem pairwise_jsSort {α : Type} (le : α → α → Bool)
    (htot : ∀ a b, le a b = false → le b a = true)
    (htrans : ∀ a b c, le a b = true → le b c = true → le a c = true)
    (l : List α) :
    (jsSort le l).Pairwise (fun a b => le a b = true) := by
  induction l with
  | nil => simp [jsSort]
  | cons x xs ih =>
    simp only [jsSort, List.foldr_cons]
    exact pairwise_jsSortInsert le htot htrans x _ ih

theorem jsSorted_perm_eq :
    ∀ l1 l2 : List (String × String), l1.Perm l2 →
      l1.Pairwise (fun a b => entryLE a b = true) →
      l2.Pairwise (fun a b => entryLE a b = true) →
      (l1.map Prod.fst).Nodup → l1 = l2 := by
  intro l1
  induction l1 with
  | nil =>
    intro l2 hp _ _ _
    exact hp.nil_eq
  | cons a t1 ih =>
    intro l2 hp hs1 hs2 hnd
    cases l2 with
    | nil =>
      have := hp.length_eq
      simp at this
    | cons b t2 =>
      have hmem_a : a ∈ b :: t2 := hp.mem_iff.mp (List.mem_cons_self a t1)
      have hmem_b : b ∈ a :: t1 := hp.mem_iff.mpr (List.mem_cons_self b t2)
      rcases List.pairwise_cons.mp hs1 with ⟨h1a, h1t⟩
      rcases List.pairwise_cons.mp hs2 with ⟨h2b, h2t⟩
      rcases List.mem_cons.mp hmem_a with heq | hat2
      · subst heq
        have hp' : t1.Perm t2 := hp.cons_inv
        have hnd' : (t1.map Prod.fst).Nodup := by
          simp only [List.map_cons, List.nodup_cons] at hnd
          exact hnd.2
        rw [ih t2 hp' h1t h2t hnd']
      · rcases List.mem_cons.mp hmem_b with heq2 | hbt1
        · subst heq2
          have hp' : t1.Perm t2 := hp.cons_inv
          have hnd' : (t1.map Prod.fst).Nodup := by
            simp only [List.map_cons, List.nodup_cons] at hnd
            exact hnd.2
          rw [ih t2 hp' h1t h2t hnd']
        · have hle_ab : entryLE a b = true := h1a b hbt1
          have hle_ba : entryLE b a = true := h2b a hat2
          have hkey : a.1 = b.1 := entryLE_keys_eq a b hle_ab hle_ba
          have hin : a.1 ∈ t1.map Prod.fst :=
            List.mem_map.mpr ⟨b, hbt1, hkey.symm⟩
          simp only [List.map_cons, List.nodup_cons] at hnd
          exact absurd hin hnd.1

theorem jsSort_eq_of_perm (l1 l2 : List (String × String))
    (hnd : (l1.map Prod.fst).Nodup) (hp : l1.Perm l2) :
    jsSort entryLE l1 = jsSort entryLE l2 := by
  apply jsSorted_perm_eq
  · exact (jsSort_perm entryLE l1).trans (hp.trans (jsSort_perm entryLE l2).symm)
  · exact pairwise_jsSort entryLE entryLE_of_not entryLE_trans l1
  · exact pairwise_jsSort entryLE entryLE_of_not entryLE_trans l2
  · exact (((jsSort_perm entryLE l1).map Prod.fst).nodup_iff).mpr hnd

/-- UTF-8 bytes of one character (what `Buffer.from(string)` stores). -/
def utf8CharBytes (c : Char) : List Nat :=
  let n := c.toNat
  if n < 0x80 then [n]
  else if n < 0x800 then [0xC0 + n / 0x40, 0x80 + n % 0x40]
  else if n < 0x10000 then
    [0xE0 + n / 0x1000, 0x80 + n / 0x40 % 0x40, 0x80 + n % 0x40]
  else
    [0xF0 + n / 0x40000, 0x80 + n / 0x1000 % 0x40, 0x80 + n / 0x40 % 0x40,
      0x80 + n % 0x40]

/-- UTF-8 byte sequence of a string. -/
def utf8Bytes (s : String) : List Nat :=
  s.data.flatMap utf8CharBytes

/-- The standard base64 digit alphabet. -/
def base64Chars : List Char :=
  "ABCDEFGHIJKLMNOPQRSTUVWXYZabcdefghijklmnopqrstuvwxyz0123456789+/".data

/-- The base64 digit for a 6-bit value. -/
def b64Digit (n : Nat) : Char := base64Chars.getD n 'A'

/-- Standard base64 with padding (`Buffer.prototype.toString('base64')`). -/
def base64Encode : List Nat → String
  | [] => ""
  | [a] => String.mk [b64Digit (a / 4), b64Digit (a % 4 * 16), '=', '=']
  | [a, b] =>
    String.mk [b64Digit (a / 4), b64Digit (a % 4 * 16 + b / 16),
      b64Digit (b % 16 * 4), '=']
  | a :: b :: c :: rest =>
    String.mk [b64Digit (a / 4), b64Digit (a % 4 * 16 + b / 16),
      b64Digit (b % 16 * 4 + c / 64), b64Digit (c % 64)] ++ base64Encode rest

/-- `packagesHash(packages)`: sort the entries by name with `localeCompare`,
join `name@version` with `;`, base64 the result.  The source also contains
`if (!dependenciesRequest) return ''`, which is dead code because a
JavaScript array is always truthy. -/
def packagesHash (packages : List (String × String)) : String :=
  let dependenciesRequest :=
    (jsSort entryLE packages).map (fun nv => nv.1 ++ "@" ++ nv.2)
  base64Encode (utf8Bytes (String.intercalate ";" dependenciesRequest))

/-- Claim C5: the fingerprint is invariant under permutation of the
dependency map (whose keys are unique), equals the base64 of the
lexicographically-by-name sorted entries joined as `name@version` with `;`,
and takes the stated value on the concrete two-entry map. -/
theorem c5_packagesHash_canonical (l1 l2 : List (String × String))
    (hnd : (l1.map Prod.fst).Nodup) (hperm : l1.Perm l2) :
    packagesHash l1 = packagesHash l2 ∧
    packagesHash l1 = base64Encode (utf8Bytes (String.intercalate ";"
      ((jsSort entryLE l1).map (fun nv => nv.1 ++ "@" ++ nv.2)))) ∧
    packagesHash [("b", "2"), ("a", "1")] = packagesHash [("a", "1"), ("b", "2")] ∧
    packagesHash [("a", "1"), ("b", "2")] = base64Encode (utf8Bytes "a@1;b@2") ∧
    packagesHash [("a", "1"), ("b", "2")] = "YUAxO2JAMg==" := by
  refine ⟨?_, rfl, by decide, by decide, by decide⟩
  unfold packagesHash
  rw [jsSort_eq_of_perm l1 l2 hnd hperm]

/-- Witness for claim C5 at the concrete permuted maps. -/
theorem c5_packagesHash_canonical_witness :
    (([(("b" : String), ("2" : String)), ("a", "1")].map Prod.fst).Nodup ∧
      [(("b" : String), ("2" : String)), ("a", "1")].Perm [("a", "1"), ("b", "2")]) ∧
    packagesHash [("b", "2"), ("a", "1")] = packagesHash [("a", "1"), ("b", "2")] :=
  ⟨⟨by decide, by decide⟩,
    (c5_packagesHash_canonical [("b", "2"), ("a", "1")] [("a", "1"), ("b", "2")]
      (by decide) (by decide)).1⟩

/-! ## Two-tier package cache (src/dependencies-installer.ts, claim C7)

Both combinators are generic in the data type `T` and result type `R`;
thrown exceptions are `Except` errors and the backing store is threaded
explicitly.  `truthy` models JavaScript truthiness of the stored value. -/

/-- `Cache.withCacheData(request, getData, transform)` over the persistent
`sandpack-cdn` store: on a hit whose record has truthy `data`, return the
transformed cached data; a transform exception is caught and logged, and
control falls to the miss path `getData()` then `db.put({request, data})`
then `transform(data)` (the final transform is outside the `try`). -/
def withCacheData {T R E : Type} (store : List (String × T)) (request : String)
    (truthy : T → Bool) (getData : Except E T) (transform : T → Except E R) :
    Except E R × List (String × T) :=
  let fresh : Except E R × List (String × T) :=
    match getData with
    | .error e => (.error e, store)
    | .ok data => (transform data, objSet store request data)
  match objGet store request with
  | some cached =>
    if truthy cached then
      match transform cached with
      | .ok r => (.ok r, store)
      | .error _ => fresh
    else fresh
  | none => fresh

/-- `Cache.withLocalCacheData(request, getData, transform)` over the
process-local map: on a truthy hit, return the transformed cached value; a
transform exception is caught and logged, and control falls to
`getData()` then `localCache.set(request, data)` then `transform(data)`. -/
def withLocalCacheData {T R E : Type} (cache : List (String × T))
    (request : String) (truthy : T → Bool) (getData : Except E T)
    (transform : T → Except E R) : Except E R × List (String × T) :=
  let fresh : Except E R × List (String × T) :=
    match getData with
    | .error e => (.error e, cache)
    | .ok data => (transform data, objSet cache request data)
  match objGet cache request with
  | some cached =>
    if truthy cached then
      match transform cached with
      | .ok r => (.ok r, cache)
      | .error _ => fresh
    else fresh
  | none => fresh

/-- Claim C7: for both cache tiers, when the stored entry is truthy but the
transform over it throws, the call performs a fresh fetch, stores the fetched
data in the cache, and returns the transform of the fresh data — the
exception raised on the cached value never escapes to the caller. -/
theorem c7_cache_transform_fallback {T R E : Type} (store : List (String × T))
    (request : String) (truthy : T → Bool) (cached data : T) (e : E)
    (transform : T → Except E R)
    (hhit : objGet store request = some cached) (htr : truthy cached = true)
    (herr : transform cached = .error e) :
    withCacheData store request truthy (.ok data) transform =
      (transform data, objSet store request data) ∧
    withLocalCacheData store request truthy (.ok data) transform =
      (transform data, objSet store request data) := by
  constructor
  · simp [withCacheData, hhit, htr, herr]
  · simp [withLocalCacheData, hhit, htr, herr]

/-- Witness for claim C7: a corrupted cache entry `"bad"` under a transform
that rejects it is replaced by freshly fetched `"good"`, which is returned. -/
theorem c7_cache_transform_fallback_witness :
    (objGet [(("k" : String), ("bad" : String))] "k" = some "bad" ∧
      (fun s => s ≠ "") "bad" = true ∧
      (fun s => if s = "bad" then (.error "boom" : Except String String)
        else .ok s) "bad" = .error "boom") ∧
    (withCacheData [("k", "bad")] "k" (fun s => s ≠ "") (.ok "good")
        (fun s => if s = "bad" then (.error "boom" : Except String String)
          else .ok s) =
      (.ok "good", [("k", "good")]) ∧
     withLocalCacheData [("k", "bad")] "k" (fun s => s ≠ "") (.ok "good")
        (fun s => if s = "bad" then (.error "boom" : Except String String)
          else .ok s) =
      (.ok "good", [("k", "good")])) := by
  refine ⟨⟨by decide, by decide, by rfl⟩, ?_⟩
  have h := c7_cache_transform_fallback [(("k" : String), ("bad" : String))] "k"
    (fun s => s ≠ "") "bad" "good" "boom"
    (fun s => if s = "bad" then (.error "boom" : Except String String) else .ok s)
    (by decide) (by decide) (by rfl)
  exact ⟨by rw [h.1]; rfl, by rw [h.2]; rfl⟩

/-! ## Path join (src/helpers/path.ts) -/

/-- `p.replace(/\x2f+$/g, '')`. -/
def dropTrailingSlashes (s : String) : String :=
  String.mk (s.data.reverse.dropWhile (fun c => c == '/')).reverse

/-- `p.replace(/^\x2f+/g, '')`. -/
def dropLeadingSlashes (s : String) : String :=
  String.mk (s.data.dropWhile (fun c => c == '/'))

/-- Run-collapsing step for `replace(/\x2f+/g, '/')`. -/
def collapseGo : Char → List Char → List Char
  | _, [] => []
  | prev, c :: rest =>
    if prev == '/' && c == '/' then collapseGo prev rest
    else c :: collapseGo c rest

/-- `s.replace(/\x2f+/g, '/')`. -/
def collapseSlashes (s : String) : String :=
  match s.data with
  | [] => ""
  | c :: rest => String.mk (c :: collapseGo c rest)

/-- `path.join(...paths)`: drop falsy segments, strip trailing slashes from
the first segment and slashes from both ends of the rest, join with `/`,
collapse slash runs. -/
def pathJoin (paths : List String) : String :=
  let filtered := paths.filter (fun p => p ≠ "")
  let mapped := filtered.enum.map (fun ip =>
    if ip.1 = 0 then dropTrailingSlashes ip.2
    else dropLeadingSlashes (dropTrailingSlashes ip.2))
  collapseSlashes (String.intercalate "/" mapped)

/-! ## Dependency resolution (src/dependencies-installer.ts, claims C2, C10)

The CDN, `JSON.parse` and the clock are ambient parameters: `registry` maps a
fingerprint to the decoded distTags response, `parsePkg` models `JSON.parse`
on a `package.json` text.  Network traffic is counted in `networkCalls`. -/

/-- The value `sandpackClient.resolvePackages` resolves with. -/
structure ResolveResult where
  packageJsonHash : String
  dependencies : Option (List (String × String))
deriving DecidableEq, Repr

/-- The state the resolver touches: the file system, the process-local
`localCache` map, and a count of issued network requests. -/
structure NpmWorld where
  fs : FSState
  localCache : List (String × ResolveResult)
  networkCalls : Nat
deriving DecidableEq, Repr

/-- JavaScript `s.split(sep)` on a single-character separator. -/
def splitOnChar (sep : Char) : List Char → List (List Char)
  | [] => [[]]
  | c :: rest =>
    let r := splitOnChar sep rest
    if c = sep then [] :: r
    else
      match r with
      | [] => [[c]]
      | g :: gs => (c :: g) :: gs

/-- `name.split('@').slice(0, -1).join('@')`: strip the trailing `@major`
segment, preserving scoped names. -/
def stripLastAtSegment (s : String) : String :=
  String.intercalate "@" (((splitOnChar '@' s.data).map String.mk).dropLast)

/-- The fields of a parsed `package.json` the resolver reads
(`devDependencies` is deliberately ignored by the source). -/
structure PkgJson where
  dependencies : Option (List (String × String))
  peerDependencies : Option (List (String × String))

/-- `NPMSpawnOptions` (the progress sink is irrelevant to these claims). -/
structure NPMSpawnOptions where
  cwd : Option String
  dependencies : Option (List (String × String))
  registryBaseUrl : String

/-- `process.cwd()` from the bundler's browser shim; unreachable here
because `fs.cwd()` defaults to `/app`. -/
def processCwd : String := "/"

/-- `options?.cwd || fs.cwd() || process.cwd()`. -/
def npmCwd (fs : FSState) (options : NPMSpawnOptions) : String :=
  jsStringOrOpt options.cwd (jsStringOr fs.cwd processCwd)

/-- `x || {}` on an optional object. -/
def jsObjOrEmpty {α : Type} (o : Option (List (String × α))) :
    List (String × α) :=
  match o with
  | some l => l
  | none => []

/-- `getPackageJson`: read `<cwd>/package.json`; the empty string (the
`readFile` result for an absent file) is falsy and yields `null`. -/
def getPackageJson (parsePkg : String → Option PkgJson) (fs : FSState)
    (options : NPMSpawnOptions) : Option PkgJson :=
  let content := fs.readFile (pathJoin [npmCwd fs options, "package.json"])
  if content = "" then none else parsePkg content

/-- `{...dependencies, ...peerDependencies, ...options.dependencies}` (the
commented-out `devDependencies` spread is absent). -/
def allDependenciesOf (parsePkg : String → Option PkgJson) (fs : FSState)
    (options : NPMSpawnOptions) : List (String × String) :=
  let packageJson := getPackageJson parsePkg fs options
  objAssign (objAssign (objAssign []
    (jsObjOrEmpty (packageJson.bind PkgJson.dependencies)))
    (jsObjOrEmpty (packageJson.bind PkgJson.peerDependencies)))
    (jsObjOrEmpty options.dependencies)

/-- `sandpackClient.resolvePackages`: on fingerprint match return
`{packageJsonHash, dependencies: null}` with no request; on miss go through
`Cache.withLocalCacheData(requestPath, fetch, async files => files)` — a
cache hit returns the cached result object as is, a miss fetches (counted),
decodes the distTags map, builds the pass-through dependency map by
stripping each key's trailing `@major` segment, stores the result and
returns it.  (The source also computes a highest-major dedup view of the
same response, which is only logged, never returned.) -/
def resolvePackages (registry : String → List (String × String))
    (w : NpmWorld) (packages : List (String × String))
    (packageJsonHash : String) : ResolveResult × NpmWorld :=
  let newPackageJsonHash := packagesHash packages
  if newPackageJsonHash = packageJsonHash then
    (⟨newPackageJsonHash, none⟩, w)
  else
    let requestPath := "/v2/deps/" ++ newPackageJsonHash
    match objGet w.localCache requestPath with
    | some cached => (cached, w)
    | none =>
      let distTags := registry newPackageJsonHash
      let result : ResolveResult :=
        ⟨newPackageJsonHash,
          some (distTags.map (fun nv => (stripLastAtSegment nv.1, nv.2)))⟩
      (result,
        { w with
          localCache := objSet w.localCache requestPath result,
          networkCalls := w.networkCalls + 1 })

/-- `NPMInstaller.resolveDependencies`: merge the dependency sources, pass
the fingerprint stored at `/~system/package-json-hash`, resolve, write the
returned fingerprint back, and return the dependency map (`null` on match). -/
def resolveDependencies (parsePkg : String → Option PkgJson)
    (registry : String → List (String × String)) (w : NpmWorld)
    (options : NPMSpawnOptions) :
    Option (List (String × String)) × NpmWorld :=
  let allDependencies := allDependenciesOf parsePkg w.fs options
  let packageJsonHashPath := "/~system/package-json-hash"
  let rw1 := resolvePackages registry w allDependencies
    (w.fs.readFile packageJsonHashPath)
  let w2 := { rw1.2 with
    fs := rw1.2.fs.writeFile packageJsonHashPath rw1.1.packageJsonHash }
  (rw1.1.dependencies, w2)

theorem objGet_mem {α : Type} (m : List (String × α)) (k : String) (v : α)
    (h : objGet m k = some v) : (k, v) ∈ m := by
  induction m with
  | nil => simp [objGet] at h
  | cons hd tl ih =>
    simp only [objGet] at h
    by_cases hk : hd.1 = k
    · rw [if_pos hk] at h
      have hv : hd.2 = v := Option.some.inj h
      have hx : hd = (k, v) := by
        obtain ⟨h1, h2⟩ := hd
        simp only at hk hv
        rw [hk, hv]
      rw [← hx]
      exact List.mem_cons_self _ _
    · rw [if_neg hk] at h
      exact List.mem_cons_of_mem _ (ih h)

theorem mem_objSet {α : Type} (m : List (String × α)) (k : String) (v : α)
    (x : String × α) (h : x ∈ objSet m k v) : x = (k, v) ∨ x ∈ m := by
  induction m with
  | nil =>
    simp only [objSet] at h
    rcases List.mem_singleton.mp h with heq
    exact Or.inl heq
  | cons hd tl ih =>
    simp only [objSet] at h
    by_cases hk : hd.1 = k
    · rw [if_pos hk] at h
      rcases List.mem_cons.mp h with heq | hm
      · exact Or.inl heq
      · exact Or.inr (List.mem_cons_of_mem _ hm)
    · rw [if_neg hk] at h
      rcases List.mem_cons.mp h with heq | hm
      · exact Or.inr (heq ▸ List.mem_cons_self _ _)
      · rcases ih hm with heq2 | hm2
        · exact Or.inl heq2
        · exact Or.inr (List.mem_cons_of_mem _ hm2)

theorem strAppend_left_cancel (x a b : String) (h : x ++ a = x ++ b) :
    a = b := by
  have hd : (x ++ a).data = (x ++ b).data := congrArg String.data h
  rw [String.data_append, String.data_append] at hd
  exact congrArg String.mk (List.append_cancel_left hd)

theorem readFile_writeFile (fs : FSState) (p c : String) :
    (fs.writeFile p c).readFile p = c := by
  unfold FSState.readFile FSState.writeFile
  rw [objGet_objSet, if_pos rfl]
  simp only [Option.map_some', contents_writeMerge, jsStringOrOpt]
  by_cases hc : c = ""
  · simp [hc]
  · simp [hc]

/-- Every `localCache` entry was stored by `resolvePackages`, so its key is
`/v2/deps/` followed by the fingerprint the cached result carries. -/
def cacheWF (cache : List (String × ResolveResult)) : Bool :=
  cache.all (fun kr => kr.1 == "/v2/deps/" ++ kr.2.packageJsonHash)

theorem resolvePackages_hash (registry : String → List (String × String))
    (w : NpmWorld) (packages : List (String × String)) (stored : String)
    (hwf : cacheWF w.localCache = true) :
    (resolvePackages registry w packages stored).1.packageJsonHash =
      packagesHash packages := by
  unfold resolvePackages
  by_cases hm : packagesHash packages = stored
  · simp [hm]
  · simp only [hm, if_false]
    cases hg : objGet w.localCache ("/v2/deps/" ++ packagesHash packages) with
    | none => simp [hg]
    | some cached =>
      simp only [hg]
      have hmem := objGet_mem _ _ _ hg
      have hbeq := List.all_eq_true.mp hwf _ hmem
      have heq : ("/v2/deps/" ++ packagesHash packages : String) =
          "/v2/deps/" ++ cached.packageJsonHash := eq_of_beq hbeq
      exact (strAppend_left_cancel _ _ _ heq).symm

theorem resolvePackages_fs (registry : String → List (String × String))
    (w : NpmWorld) (packages : List (String × String)) (stored : String) :
    (resolvePackages registry w packages stored).2.fs = w.fs := by
  unfold resolvePackages
  by_cases hm : packagesHash packages = stored
  · simp [hm]
  · simp only [hm, if_false]
    cases hg : objGet w.localCache ("/v2/deps/" ++ packagesHash packages) <;>
      simp [hg]

theorem resolvePackages_networkCalls_le
    (registry : String → List (String × String)) (w : NpmWorld)
    (packages : List (String × String)) (stored : String) :
    (resolvePackages registry w packages stored).2.networkCalls ≤
      w.networkCalls + 1 := by
  unfold resolvePackages
  by_cases hm : packagesHash packages = stored
  · simp [hm]
  · simp only [hm, if_false]
    cases hg : objGet w.localCache ("/v2/deps/" ++ packagesHash packages) <;>
      simp [hg]

theorem resolvePackages_match (registry : String → List (String × String))
    (w : NpmWorld) (packages : List (String × String)) (stored : String)
    (hm : packagesHash packages = stored) :
    resolvePackages registry w packages stored =
      (⟨packagesHash packages, none⟩, w) := by
  unfold resolvePackages
  simp [hm]

theorem resolvePackages_miss_fetch
    (registry : String → List (String × String)) (w : NpmWorld)
    (packages : List (String × String)) (stored : String)
    (hm : packagesHash packages ≠ stored)
    (hg : objGet w.localCache ("/v2/deps/" ++ packagesHash packages) = none) :
    (resolvePackages registry w packages stored).2.networkCalls =
      w.networkCalls + 1 := by
  unfold resolvePackages
  simp [hm, hg]

theorem resolvePackages_cache_hit
    (registry : String → List (String × String)) (w : NpmWorld)
    (packages : List (String × String)) (stored : String)
    (cached : ResolveResult) (hm : packagesHash packages ≠ stored)
    (hg : objGet w.localCache ("/v2/deps/" ++ packagesHash packages) =
      some cached) :
    resolvePackages registry w packages stored = (cached, w) := by
  unfold resolvePackages
  simp [hm, hg]

theorem cacheWF_resolvePackages (registry : String → List (String × String))
    (w : NpmWorld) (packages : List (String × String)) (stored : String)
    (hwf : cacheWF w.localCache = true) :
    cacheWF (resolvePackages registry w packages stored).2.localCache = true := by
  unfold resolvePackages
  by_cases hm : packagesHash packages = stored
  · simpa [hm] using hwf
  · simp only [hm, if_false]
    cases hg : objGet w.localCache ("/v2/deps/" ++ packagesHash packages) with
    | some cached => simpa [hg] using hwf
    | none =>
      simp only [hg]
      apply List.all_eq_true.mpr
      intro kr hkr
      rcases mem_objSet _ _ _ _ hkr with heq | hmem
      · rw [heq]
        simp [cacheWF]
      · exact List.all_eq_true.mp hwf _ hmem

theorem resolveDependencies_parts (pp : String → Option PkgJson)
    (reg : String → List (String × String)) (w : NpmWorld)
    (opts : NPMSpawnOptions) :
    (resolveDependencies pp reg w opts).1 =
      (resolvePackages reg w (allDependenciesOf pp w.fs opts)
        (w.fs.readFile "/~system/package-json-hash")).1.dependencies ∧
    (resolveDependencies pp reg w opts).2.networkCalls =
      (resolvePackages reg w (allDependenciesOf pp w.fs opts)
        (w.fs.readFile "/~system/package-json-hash")).2.networkCalls ∧
    (resolveDependencies pp reg w opts).2.localCache =
      (resolvePackages reg w (allDependenciesOf pp w.fs opts)
        (w.fs.readFile "/~system/package-json-hash")).2.localCache ∧
    (resolveDependencies pp reg w opts).2.fs =
      (resolvePackages reg w (allDependenciesOf pp w.fs opts)
        (w.fs.readFile "/~system/package-json-hash")).2.fs.writeFile
        "/~system/package-json-hash"
        (resolvePackages reg w (allDependenciesOf pp w.fs opts)
          (w.fs.readFile "/~system/package-json-hash")).1.packageJsonHash :=
  ⟨rfl, rfl, rfl, rfl⟩

theorem resolveDependencies_stored_hash (pp : String → Option PkgJson)
    (reg : String → List (String × String)) (w : NpmWorld)
    (opts : NPMSpawnOptions) (hwf : cacheWF w.localCache = true) :
    (resolveDependencies pp reg w opts).2.fs.readFile
        "/~system/package-json-hash" =
      packagesHash (allDependenciesOf pp w.fs opts) := by
  rw [(resolveDependencies_parts pp reg w opts).2.2.2, readFile_writeFile]
  exact resolvePackages_hash _ _ _ _ hwf

theorem resolveDependencies_cacheWF (pp : String → Option PkgJson)
    (reg : String → List (String × String)) (w : NpmWorld)
    (opts : NPMSpawnOptions) (hwf : cacheWF w.localCache = true) :
    cacheWF (resolveDependencies pp reg w opts).2.localCache = true := by
  rw [(resolveDependencies_parts pp reg w opts).2.2.1]
  exact cacheWF_resolvePackages _ _ _ _ hwf

/-- Claim C2 (amended): the fingerprint-match fast path holds as stated —
when the stored `/~system/package-json-hash` equals the fingerprint of the
merged dependency map, `resolveDependencies` returns `null` with no network
request.  Two consecutive calls with identical dependency maps issue AT MOST
one network call in total: the second call always issues zero, and the first
issues exactly one IF AND ONLY IF the stored fingerprint differs and the
local cache has no entry for the request path (the final biconditional);
with zero calls otherwise — a fingerprint match, or a differing fingerprint
whose request path is already in the local cache, both skip the network —
so the original "exactly one in total" fails. -/
theorem c2_resolve_memoisation_amended (pp : String → Option PkgJson)
    (reg : String → List (String × String)) (w : NpmWorld)
    (opts : NPMSpawnOptions) (hwf : cacheWF w.localCache = true)
    (hstable : allDependenciesOf pp (resolveDependencies pp reg w opts).2.fs opts
      = allDependenciesOf pp w.fs opts) :
    (w.fs.readFile "/~system/package-json-hash" =
        packagesHash (allDependenciesOf pp w.fs opts) →
      (resolveDependencies pp reg w opts).1 = none ∧
      (resolveDependencies pp reg w opts).2.networkCalls = w.networkCalls) ∧
    (resolveDependencies pp reg
        (resolveDependencies pp reg w opts).2 opts).1 = none ∧
    (resolveDependencies pp reg
        (resolveDependencies pp reg w opts).2 opts).2.networkCalls =
      (resolveDependencies pp reg w opts).2.networkCalls ∧
    (resolveDependencies pp reg
        (resolveDependencies pp reg w opts).2 opts).2.networkCalls ≤
      w.networkCalls + 1 ∧
    ((resolveDependencies pp reg w opts).2.networkCalls =
        w.networkCalls + 1 ↔
      w.fs.readFile "/~system/package-json-hash" ≠
          packagesHash (allDependenciesOf pp w.fs opts) ∧
        objGet w.localCache
          ("/v2/deps/" ++ packagesHash (allDependenciesOf pp w.fs opts)) =
          none) := by
  have hstored := resolveDependencies_stored_hash pp reg w opts hwf
  have hmatch2 : packagesHash (allDependenciesOf pp
        (resolveDependencies pp reg w opts).2.fs opts) =
      (resolveDependencies pp reg w opts).2.fs.readFile
        "/~system/package-json-hash" := by
    rw [hstable, hstored]
  have hcall1_le : (resolveDependencies pp reg w opts).2.networkCalls ≤
      w.networkCalls + 1 := by
    rw [(resolveDependencies_parts pp reg w opts).2.1]
    exact resolvePackages_networkCalls_le _ _ _ _
  have hcall2_parts := resolveDependencies_parts pp reg
    (resolveDependencies pp reg w opts).2 opts
  have hcall2_resolve := resolvePackages_match reg
    (resolveDependencies pp reg w opts).2
    (allDependenciesOf pp (resolveDependencies pp reg w opts).2.fs opts)
    ((resolveDependencies pp reg w opts).2.fs.readFile
      "/~system/package-json-hash") hmatch2
  refine ⟨?_, ?_, ?_, ?_, ?_⟩
  · intro hm
    constructor
    · rw [(resolveDependencies_parts pp reg w opts).1,
        resolvePackages_match _ _ _ _ hm.symm]
    · rw [(resolveDependencies_parts pp reg w opts).2.1,
        resolvePackages_match _ _ _ _ hm.symm]
  · rw [hcall2_parts.1, hcall2_resolve]
  · rw [hcall2_parts.2.1, hcall2_resolve]
  · rw [hcall2_parts.2.1, hcall2_resolve]
    exact hcall1_le
  · constructor
    · intro hplus
      rw [(resolveDependencies_parts pp reg w opts).2.1] at hplus
      by_cases hm : w.fs.readFile "/~system/package-json-hash" =
          packagesHash (allDependenciesOf pp w.fs opts)
      · rw [resolvePackages_match _ _ _ _ hm.symm] at hplus
        simp at hplus
      · cases hg : objGet w.localCache
            ("/v2/deps/" ++ packagesHash (allDependenciesOf pp w.fs opts)) with
        | none => exact ⟨hm, rfl⟩
        | some cached =>
          rw [resolvePackages_cache_hit _ _ _ _ cached
            (fun h => hm h.symm) hg] at hplus
          simp at hplus
    · intro hmiss
      rw [(resolveDependencies_parts pp reg w opts).2.1]
      exact resolvePackages_miss_fetch _ _ _ _
        (fun h => hmiss.1 h.symm) hmiss.2

/-- Claim C2 is false as stated in its second half: on a freshly created
file system with an empty dependency map, the fingerprint of the empty map
is the empty string and equals `readFile`'s empty-string result for the
absent hash file, so BOTH consecutive calls take the match path and the two
calls issue zero network calls in total, not exactly one. -/
theorem c2_memoisation_counterexample :
    (resolveDependencies (fun _ => none) (fun _ => [])
        (resolveDependencies (fun _ => none) (fun _ => [])
          ⟨emptyFS, [], 0⟩ ⟨none, none, "https://registry"⟩).2
        ⟨none, none, "https://registry"⟩).2.networkCalls = 0 ∧
    (0 : Nat) ≠ 1 := by
  constructor
  · decide
  · decide

/-- Witness for the amended claim C2: with one override dependency and an
empty cache, the first call fetches once, the second call is memoised, and
the pair of calls issues exactly one network request in total. -/
theorem c2_resolve_memoisation_amended_witness :
    (cacheWF ([] : List (String × ResolveResult)) = true ∧
      allDependenciesOf (fun _ => none)
        (resolveDependencies (fun _ => none) (fun _ => [("x@1", "1.0.0")])
          ⟨emptyFS, [], 0⟩ ⟨none, some [("x", "1.0.0")], "r"⟩).2.fs
        ⟨none, some [("x", "1.0.0")], "r"⟩ =
      allDependenciesOf (fun _ => none) emptyFS
        ⟨none, some [("x", "1.0.0")], "r"⟩) ∧
    ((resolveDependencies (fun _ => none) (fun _ => [("x@1", "1.0.0")])
        (resolveDependencies (fun _ => none) (fun _ => [("x@1", "1.0.0")])
          ⟨emptyFS, [], 0⟩ ⟨none, some [("x", "1.0.0")], "r"⟩).2
        ⟨none, some [("x", "1.0.0")], "r"⟩).1 = none ∧
      (resolveDependencies (fun _ => none) (fun _ => [("x@1", "1.0.0")])
        (resolveDependencies (fun _ => none) (fun _ => [("x@1", "1.0.0")])
          ⟨emptyFS, [], 0⟩ ⟨none, some [("x", "1.0.0")], "r"⟩).2
        ⟨none, some [("x", "1.0.0")], "r"⟩).2.networkCalls =
      (resolveDependencies (fun _ => none) (fun _ => [("x@1", "1.0.0")])
        ⟨emptyFS, [], 0⟩ ⟨none, some [("x", "1.0.0")], "r"⟩).2.networkCalls) ∧
    (resolveDependencies (fun _ => none) (fun _ => [("x@1", "1.0.0")])
        (resolveDependencies (fun _ => none) (fun _ => [("x@1", "1.0.0")])
          ⟨emptyFS, [], 0⟩ ⟨none, some [("x", "1.0.0")], "r"⟩).2
        ⟨none, some [("x", "1.0.0")], "r"⟩).2.networkCalls = 1 :=
  ⟨⟨by decide, by decide⟩,
    ⟨(c2_resolve_memoisation_amended (fun _ => none) (fun _ => [("x@1", "1.0.0")])
        ⟨emptyFS, [], 0⟩ ⟨none, some [("x", "1.0.0")], "r"⟩
        (by decide) (by decide)).2.1,
      (c2_resolve_memoisation_amended (fun _ => none) (fun _ => [("x@1", "1.0.0")])
        ⟨emptyFS, [], 0⟩ ⟨none, some [("x", "1.0.0")], "r"⟩
        (by decide) (by decide)).2.2.1⟩,
    by decide⟩

/-- Claim C10: with no `<cwd>/package.json`, no stored fingerprint and no
override dependencies, `resolveDependencies` returns `null` without touching
the network, because the fingerprint of the empty dependency map is the
empty string, which equals `readFile`'s result for the absent hash file. -/
theorem c10_fresh_fs_resolves_null (pp : String → Option PkgJson)
    (reg : String → List (String × String)) (w : NpmWorld)
    (opts : NPMSpawnOptions)
    (hpkg : w.fs.readFile (pathJoin [npmCwd w.fs opts, "package.json"]) = "")
    (hhash : w.fs.readFile "/~system/package-json-hash" = "")
    (hoverride : opts.dependencies = none) :
    (resolveDependencies pp reg w opts).1 = none ∧
    (resolveDependencies pp reg w opts).2.networkCalls = w.networkCalls ∧
    packagesHash [] = "" := by
  have hdeps : allDependenciesOf pp w.fs opts = [] := by
    unfold allDependenciesOf getPackageJson
    rw [hpkg]
    simp [hoverride, jsObjOrEmpty, objAssign]
  have hmatch : packagesHash (allDependenciesOf pp w.fs opts) =
      w.fs.readFile "/~system/package-json-hash" := by
    rw [hhash, hdeps]
    rfl
  refine ⟨?_, ?_, rfl⟩
  · rw [(resolveDependencies_parts pp reg w opts).1,
      resolvePackages_match _ _ _ _ hmatch]
  · rw [(resolveDependencies_parts pp reg w opts).2.1,
      resolvePackages_match _ _ _ _ hmatch]

/-- Witness for claim C10 on the freshly constructed file system. -/
theorem c10_fresh_fs_resolves_null_witness :
    ((⟨emptyFS, [], 7⟩ : NpmWorld).fs.readFile
        (pathJoin [npmCwd emptyFS ⟨none, none, "r"⟩, "package.json"]) = "" ∧
      (⟨emptyFS, [], 7⟩ : NpmWorld).fs.readFile
        "/~system/package-json-hash" = "") ∧
    ((resolveDependencies (fun _ => none) (fun _ => [])
        ⟨emptyFS, [], 7⟩ ⟨none, none, "r"⟩).1 = none ∧
      (resolveDependencies (fun _ => none) (fun _ => [])
        ⟨emptyFS, [], 7⟩ ⟨none, none, "r"⟩).2.networkCalls = 7 ∧
      packagesHash [] = "") :=
  ⟨⟨by decide, by decide⟩,
    c10_fresh_fs_resolves_null (fun _ => none) (fun _ => [])
      ⟨emptyFS, [], 7⟩ ⟨none, none, "r"⟩ (by decide) (by decide) rfl⟩

/-! ## Worker IPC statuses (src/unnamed/part_000) -/

/-- `IPCStatus = 'resolve' | 'reject' | 'progress'`. -/
inductive IPCStatus where
  | resolve
  | reject
  | progress
deriving DecidableEq, Repr

/-! ## JSON values and `JSON.stringify` (claim C3)

Engine diagnostics are opaque JSON values; `JSON.stringify` omits properties
holding `undefined`, which matters for the `{errors, warnings}` payload. -/

inductive Json where
  | null
  | bool (b : Bool)
  | num (n : Int)
  | str (s : String)
  | arr (elems : List Json)
  | obj (fields : List (String × Json))

/-- Lowercase hexadecimal digit. -/
def hexDigit (n : Nat) : Char := "0123456789abcdef".data.getD n '0'

/-- `JSON.stringify` escaping for one character. -/
def escapeJsonChar (c : Char) : List Char :=
  if c = '"' then ['\\', '"']
  else if c = '\\' then ['\\', '\\']
  else if c = '\n' then ['\\', 'n']
  else if c = '\r' then ['\\', 'r']
  else if c = '\t' then ['\\', 't']
  else if c.toNat = 8 then ['\\', 'b']
  else if c.toNat = 12 then ['\\', 'f']
  else if c.toNat < 0x20 then
    ['\\', 'u', '0', '0', hexDigit (c.toNat / 16), hexDigit (c.toNat % 16)]
  else [c]

/-- A JSON string literal. -/
def jsonQuote (s : String) : String :=
  String.mk ('"' :: (s.data.flatMap escapeJsonChar ++ ['"']))

mutual

/-- `JSON.stringify` of a JSON value. -/
def jsonStringify : Json → String
  | .null => "null"
  | .bool true => "true"
  | .bool false => "false"
  | .num n => toString n
  | .str s => jsonQuote s
  | .arr es => "[" ++ jsonStringifyArr es ++ "]"
  | .obj fs => "\x7b" ++ jsonStringifyObj fs ++ "\x7d"

/-- Comma-joined stringified array elements. -/
def jsonStringifyArr : List Json → String
  | [] => ""
  | [j] => jsonStringify j
  | j :: rest => jsonStringify j ++ "," ++ jsonStringifyArr rest

/-- Comma-joined stringified object properties. -/
def jsonStringifyObj : List (String × Json) → String
  | [] => ""
  | [(k, v)] => jsonQuote k ++ ":" ++ jsonStringify v
  | (k, v) :: rest =>
    jsonQuote k ++ ":" ++ jsonStringify v ++ "," ++ jsonStringifyObj rest

end

/-! ## Stderr merging and the in-worker error protocol (src/worker.ts) -/

/-- First index of `needle` in `hay` (`String.prototype.indexOf`). -/
def listIndexOfSub (needle : List Char) : List Char → Option Nat
  | [] => if needle.isPrefixOf ([] : List Char) then some 0 else none
  | c :: t =>
    if needle.isPrefixOf (c :: t) then some 0
    else (listIndexOfSub needle t).map (· + 1)

/-- `hay.indexOf(needle)` as an option. -/
def strIndexOfSub (hay needle : String) : Option Nat :=
  listIndexOfSub needle.data hay.data

/-- `hay.includes(needle)`. -/
def strContainsSub (hay needle : String) : Bool :=
  (strIndexOfSub hay needle).isSome

/-- One pass of `replace(/\x1B\[[^m]*m/g, '')`: at `ESC [`, drop through the
first `m`; otherwise keep the character.  Each step consumes at least one
character, so fuel equal to the length always suffices. -/
def stripAnsiGo : Nat → List Char → List Char
  | 0, l => l
  | _ + 1, [] => []
  | fuel + 1, c :: rest =>
    if c = '\x1B' then
      match rest with
      | '[' :: rest2 =>
        match List.findIdx? (fun ch => ch == 'm') rest2 with
        | some k => stripAnsiGo fuel (rest2.drop (k + 1))
        | none => c :: stripAnsiGo fuel rest
      | _ => c :: stripAnsiGo fuel rest
    else c :: stripAnsiGo fuel rest

/-- `s.replace(/\x1B\[[^m]*m/g, '')`. -/
def stripAnsi (s : String) : String :=
  String.mk (stripAnsiGo s.data.length s.data)

/-- The loop body of `mergeStderrStreams`: a formatted entry already in
stderr is dropped; if its ANSI-stripped form occurs in stderr, the coloured
form is spliced into stderr in its place and the entry dropped; otherwise
the entry is kept.  Kept entries are joined and prepended to the final
stderr. -/
def mergeGo : List String → String → List String × String
  | [], stderr => ([], stderr)
  | f :: rest, stderr =>
    if strContainsSub stderr f then mergeGo rest stderr
    else
      let replaced := stripAnsi f
      match strIndexOfSub stderr replaced with
      | some idx =>
        mergeGo rest
          (strTake stderr idx ++ f ++ strDrop stderr (idx + strLen replaced))
      | none =>
        let kr := mergeGo rest stderr
        (f :: kr.1, kr.2)

/-- `mergeStderrStreams(formatted, stderr)` (src/worker.ts). -/
def mergeStderrStreams (formatted : List String) (stderr : String) : String :=
  let kr := mergeGo formatted stderr
  String.join kr.1 ++ kr.2

/-- `formatMessages` kinds. -/
inductive MsgKind where
  | error
  | warning
deriving DecidableEq, Repr

/-- An engine rejection as `respondWithError` reads it: optional `errors`
and `warnings` arrays (absent properties are `none`; a present array is
truthy even when empty) and the string rendering `err + ''`. -/
structure ErrObj where
  errors : Option (List Json)
  warnings : Option (List Json)
  str : String

/-- The payload `respondWithError` posts. -/
structure ErrorsPayload where
  stderr : String
  stdout : String

/-- The local `errors` variable after the fallback
`if (!errors && !warnings) errors = [{text: err + ''}]`. -/
def effectiveErrors (err : ErrObj) : Option (List Json) :=
  match err.errors, err.warnings with
  | none, none => some [Json.obj [("text", Json.str err.str)]]
  | e, _ => e

/-- `{errors, warnings}` as `JSON.stringify` serialises it: properties
holding `undefined` are omitted. -/
def errWarnObj (errors warnings : Option (List Json)) : Json :=
  Json.obj
    ((match errors with
      | some es => [("errors", Json.arr es)]
      | none => []) ++
      (match warnings with
      | some ws => [("warnings", Json.arr ws)]
      | none => []))

/-- `respondWithError(respond, err)` (src/worker.ts): apply the fallback,
format both kinds through `fmt` (a parameter, because `formatMessages`
dispatches to the engine's own `api.formatMessages` when present and to the
version fallback otherwise), merge the formatted diagnostics into an empty
raw stderr, and respond with status `resolve`. -/
def respondWithError (fmt : MsgKind → List Json → List String) (err : ErrObj) :
    IPCStatus × ErrorsPayload :=
  let errors := effectiveErrors err
  let warnings := err.warnings
  let fmterrors := match errors with
    | some es => fmt MsgKind.error es
    | none => []
  let fmtwarnings := match warnings with
    | some ws => fmt MsgKind.warning ws
    | none => []
  (IPCStatus.resolve,
    { stderr := mergeStderrStreams (fmterrors ++ fmtwarnings) "",
      stdout := jsonStringify (errWarnObj errors warnings) })

/-- Claim C3: an engine rejection is answered with protocol status
`resolve` (never `reject`); the payload's stdout is
`JSON.stringify({errors, warnings})` and its stderr is the merged formatted
diagnostics; when the rejection carries neither array, the errors fall back
to `[{text: String(err)}]`, and a present errors array is passed through. -/
theorem c3_engine_error_as_resolve (fmt : MsgKind → List Json → List String)
    (err : ErrObj) :
    (respondWithError fmt err).1 = IPCStatus.resolve ∧
    (respondWithError fmt err).2.stdout =
      jsonStringify (errWarnObj (effectiveErrors err) err.warnings) ∧
    (respondWithError fmt err).2.stderr =
      mergeStderrStreams
        ((match effectiveErrors err with
          | some es => fmt MsgKind.error es
          | none => []) ++
          (match err.warnings with
          | some ws => fmt MsgKind.warning ws
          | none => [])) "" ∧
    (err.errors = none → err.warnings = none →
      effectiveErrors err = some [Json.obj [("text", Json.str err.str)]]) ∧
    (∀ es, err.errors = some es → effectiveErrors err = some es) := by
  refine ⟨rfl, rfl, rfl, ?_, ?_⟩
  · intro he hw
    unfold effectiveErrors
    rw [he, hw]
  · intro es he
    unfold effectiveErrors
    rw [he]

/-- Witness for claim C3: a rejection with neither array gets the textual
fallback and is resolved with the formatter output as stderr. -/
theorem c3_engine_error_as_resolve_witness :
    ((⟨none, none, "oops"⟩ : ErrObj).errors = none ∧
      (⟨none, none, "oops"⟩ : ErrObj).warnings = none) ∧
    ((respondWithError (fun _ _ => ["E1"]) ⟨none, none, "oops"⟩).1 =
        IPCStatus.resolve ∧
      effectiveErrors ⟨none, none, "oops"⟩ =
        some [Json.obj [("text", Json.str "oops")]] ∧
      (respondWithError (fun _ _ => ["E1"]) ⟨none, none, "oops"⟩).2.stderr =
        "E1") :=
  ⟨⟨rfl, rfl⟩,
    (c3_engine_error_as_resolve (fun _ _ => ["E1"]) ⟨none, none, "oops"⟩).1,
    (c3_engine_error_as_resolve (fun _ _ => ["E1"])
      ⟨none, none, "oops"⟩).2.2.2.1 rfl rfl,
    by decide⟩

/-! ## Worker-pool waiting table (src/unnamed/part_000, claim C4) -/

/-- A value delivered to a task callback: a worker payload or an `Error`. -/
inductive Delivered where
  | payload (data : Json)
  | error (msg : String)

/-- The entry `sendIPC` registers; `resolve` and `reject` callbacks always
exist, `progress` only when the submitter passed one. -/
structure PendingEntry where
  hasProgress : Bool
deriving DecidableEq, Repr

/-- One callback invocation performed on the waiting table. -/
structure CBEvent where
  id : String
  status : IPCStatus
  value : Delivered

/-- A `[id, status, data]` frame posted by a worker. -/
structure WorkerMsg where
  id : String
  status : IPCStatus
  data : Json

/-- The abort loop at the head of `reloadWorkerPool`: reject every waiting
entry with `new Error('Task aborted due to reload')` and delete it. -/
def reloadAbort (w : List (String × PendingEntry)) :
    List CBEvent × List (String × PendingEntry) :=
  (w.map (fun e =>
    ⟨e.1, IPCStatus.reject, Delivered.error "Task aborted due to reload"⟩), [])

/-- The post-setup `worker.onmessage` handler: a 3-element frame whose id is
in the waiting table invokes `waitingPromise[id]?.[status]?.(data)`
(`progress` fires only when a progress callback exists) and a terminal
status deletes the entry; a frame whose id is absent is silently dropped. -/
def onWorkerMessage (w : List (String × PendingEntry)) (m : WorkerMsg) :
    List CBEvent × List (String × PendingEntry) :=
  match objGet w m.id with
  | none => ([], w)
  | some entry =>
    let events : List CBEvent :=
      match m.status with
      | IPCStatus.resolve => [⟨m.id, IPCStatus.resolve, Delivered.payload m.data⟩]
      | IPCStatus.reject => [⟨m.id, IPCStatus.reject, Delivered.payload m.data⟩]
      | IPCStatus.progress =>
        if entry.hasProgress then
          [⟨m.id, IPCStatus.progress, Delivered.payload m.data⟩]
        else []
    let w2 := match m.status with
      | IPCStatus.resolve => objDelete w m.id
      | IPCStatus.reject => objDelete w m.id
      | IPCStatus.progress => w
    (events, w2)

/-- `sendIPC` registering a fresh task: `waitingPromise[id] = {...}`. -/
def registerTask (w : List (String × PendingEntry)) (id : String)
    (hasProgress : Bool) : List (String × PendingEntry) :=
  objSet w id ⟨hasProgress⟩

/-- The pool events that touch the waiting table. -/
inductive PoolEvent where
  | submit (id : String) (hasProgress : Bool)
  | fromWorker (m : WorkerMsg)
  | reload

/-- One pool event: its callback invocations and the new waiting table. -/
def poolStep (w : List (String × PendingEntry)) :
    PoolEvent → List CBEvent × List (String × PendingEntry)
  | PoolEvent.submit id hp => ([], registerTask w id hp)
  | PoolEvent.fromWorker m => onWorkerMessage w m
  | PoolEvent.reload => reloadAbort w

/-- Run a sequence of pool events, collecting callback invocations. -/
def poolRun (w : List (String × PendingEntry)) :
    List PoolEvent → List CBEvent × List (String × PendingEntry)
  | [] => ([], w)
  | e :: rest =>
    let s := poolStep w e
    let r := poolRun s.2 rest
    (s.1 ++ r.1, r.2)

/-- An event sequence that never re-registers an id from the table `w`. -/
def freshSubmits (w : List (String × PendingEntry)) (es : List PoolEvent) :
    Bool :=
  es.all (fun e =>
    match e with
    | PoolEvent.submit id _ => !(objGet w id).isSome
    | _ => true)

/-- The resolve invocations a run performs for ids of the table `w`. -/
def oldResolves (w : List (String × PendingEntry)) (events : List CBEvent) :
    List CBEvent :=
  events.filter (fun ev =>
    (ev.status == IPCStatus.resolve) && (objGet w ev.id).isSome)

theorem poolStep_no_old_resolve (w cur : List (String × PendingEntry))
    (e : PoolEvent)
    (hinv : ∀ id, (objGet w id).isSome → objGet cur id = none)
    (he : (match e with
      | PoolEvent.submit id _ => !(objGet w id).isSome
      | _ => true) = true) :
    oldResolves w (poolStep cur e).1 = [] ∧
    (∀ id, (objGet w id).isSome → objGet (poolStep cur e).2 id = none) := by
  cases e with
  | submit id hp =>
    refine ⟨rfl, ?_⟩
    intro id2 hold
    simp only [poolStep, registerTask, objGet_objSet]
    by_cases hid : id = id2
    · rw [hid] at he
      simp only [Bool.not_eq_true'] at he
      rw [he] at hold
      simp at hold
    · rw [if_neg hid]
      exact hinv id2 hold
  | reload =>
    constructor
    · simp only [poolStep, reloadAbort, oldResolves]
      apply List.filter_eq_nil_iff.mpr
      intro ev hev
      simp only [List.mem_map] at hev
      obtain ⟨entry, _, heq⟩ := hev
      rw [← heq]
      simp
    · intro id2 _
      simp [poolStep, reloadAbort, objGet]
  | fromWorker m =>
    obtain ⟨mid, mstatus, mdata⟩ := m
    simp only [poolStep, onWorkerMessage]
    cases hg : objGet cur mid with
    | none =>
      exact ⟨rfl, hinv⟩
    | some entry =>
      have hnotold : (objGet w mid).isSome = false := by
        by_cases hold : (objGet w mid).isSome
        · rw [hinv mid hold] at hg
          simp at hg
        · simpa using hold
      cases mstatus with
      | resolve =>
        constructor
        · simp [oldResolves, hnotold]
        · intro id2 hold
          have hnone := hinv id2 hold
          simp only [objGet_objDelete]
          by_cases hq : mid = id2 <;> simp [hq, hnone]
      | reject =>
        constructor
        · simp [oldResolves]
        · intro id2 hold
          have hnone := hinv id2 hold
          simp only [objGet_objDelete]
          by_cases hq : mid = id2 <;> simp [hq, hnone]
      | progress =>
        constructor
        · by_cases hp : entry.hasProgress <;> simp [oldResolves, hp]
        · intro id2 hold
          exact hinv id2 hold

theorem oldResolves_append (w : List (String × PendingEntry))
    (a b : List CBEvent) :
    oldResolves w (a ++ b) = oldResolves w a ++ oldResolves w b :=
  List.filter_append _ _

theorem poolRun_no_old_resolve (w : List (String × PendingEntry)) :
    ∀ (es : List PoolEvent) (cur : List (String × PendingEntry)),
      (∀ id, (objGet w id).isSome → objGet cur id = none) →
      freshSubmits w es = true →
      oldResolves w (poolRun cur es).1 = [] := by
  intro es
  induction es with
  | nil => intro cur _ _; rfl
  | cons e rest ih =>
    intro cur hinv hall
    rw [freshSubmits, List.all_cons, Bool.and_eq_true] at hall
    obtain ⟨he, hrest⟩ := hall
    have hstep := poolStep_no_old_resolve w cur e hinv he
    show oldResolves w
      ((poolStep cur e).1 ++ (poolRun (poolStep cur e).2 rest).1) = []
    rw [oldResolves_append, hstep.1,
      ih (poolStep cur e).2 hstep.2 hrest]
    rfl

/-- Claim C4: `reloadWorkerPool` first rejects every entry of the waiting
table with an Error whose message is `Task aborted due to reload` and
removes every entry; a worker frame whose id is no longer in the table is
silently dropped (no callback fires and the table is unchanged); and
starting from the emptied post-reload table, no sequence of worker frames
and fresh submissions can ever resolve a task that was waiting before the
reload. -/
theorem c4_reload_aborts_and_drops (w : List (String × PendingEntry))
    (m : WorkerMsg) (es : List PoolEvent)
    (hm : objGet w m.id = none) (hfresh : freshSubmits w es = true) :
    reloadAbort w =
      (w.map (fun e => ⟨e.1, IPCStatus.reject,
        Delivered.error "Task aborted due to reload"⟩), []) ∧
    onWorkerMessage w m = ([], w) ∧
    oldResolves w (poolRun (reloadAbort w).2 es).1 = [] := by
  refine ⟨rfl, ?_, ?_⟩
  · unfold onWorkerMessage
    rw [hm]
  · apply poolRun_no_old_resolve w es (reloadAbort w).2
    · intro id _
      simp [reloadAbort, objGet]
    · exact hfresh

/-- Witness for claim C4: a one-task table is rejected and emptied by the
reload, a frame for an unknown id is dropped, and a post-reload run that
replays the old id and serves a fresh task never resolves the old task. -/
theorem c4_reload_aborts_and_drops_witness :
    (objGet [(("t1" : String), (⟨false⟩ : PendingEntry))] "zz" = none ∧
      freshSubmits [(("t1" : String), (⟨false⟩ : PendingEntry))]
        [PoolEvent.fromWorker ⟨"t1", IPCStatus.resolve, Json.null⟩,
          PoolEvent.submit "t2" false,
          PoolEvent.fromWorker ⟨"t2", IPCStatus.resolve, Json.null⟩] = true) ∧
    (reloadAbort [(("t1" : String), (⟨false⟩ : PendingEntry))] =
        ([(("t1" : String), (⟨false⟩ : PendingEntry))].map (fun e =>
          ⟨e.1, IPCStatus.reject,
            Delivered.error "Task aborted due to reload"⟩), []) ∧
      onWorkerMessage [(("t1" : String), (⟨false⟩ : PendingEntry))]
          ⟨"zz", IPCStatus.resolve, Json.null⟩ =
        ([], [(("t1" : String), (⟨false⟩ : PendingEntry))]) ∧
      oldResolves [(("t1" : String), (⟨false⟩ : PendingEntry))]
        (poolRun
          (reloadAbort [(("t1" : String), (⟨false⟩ : PendingEntry))]).2
          [PoolEvent.fromWorker ⟨"t1", IPCStatus.resolve, Json.null⟩,
            PoolEvent.submit "t2" false,
            PoolEvent.fromWorker ⟨"t2", IPCStatus.resolve, Json.null⟩]).1 =
        []) :=
  ⟨⟨rfl, by decide⟩,
    c4_reload_aborts_and_drops [(("t1" : String), (⟨false⟩ : PendingEntry))]
      ⟨"zz", IPCStatus.resolve, Json.null⟩
      [PoolEvent.fromWorker ⟨"t1", IPCStatus.resolve, Json.null⟩,
        PoolEvent.submit "t2" false,
        PoolEvent.fromWorker ⟨"t2", IPCStatus.resolve, Json.null⟩]
      rfl (by decide)⟩
